import Mathlib

/-!
Verification of the kumamoto-kosodate scraper (`src/scraper.py`) against its
natural-language specification.  Text is modelled as `List Char` (Python
strings are sequences of code points); the regex fragments used by the code
are hand-translated into scanning functions with the same leftmost-match and
greedy/backtracking behaviour on the character classes involved.
-/

set_option maxRecDepth 4000

/-- ASCII decimal digit. -/
def isAsciiDigit (c : Char) : Bool := 48 ≤ c.toNat && c.toNat ≤ 57

/-- Full-width decimal digit ０..９. -/
def isFwDigit (c : Char) : Bool := 0xFF10 ≤ c.toNat && c.toNat ≤ 0xFF19

/-- The digits accepted by Python's `\d` in the inputs these calendars use
(ASCII plus full-width; other Unicode decimal scripts never occur here). -/
def isPyDigit (c : Char) : Bool := isAsciiDigit c || isFwDigit c

/-- Numeric value of a (half- or full-width) digit. -/
def digitVal (c : Char) : Nat :=
  if isAsciiDigit c then c.toNat - 48 else c.toNat - 0xFF10

/-- `int()` on a digit string. -/
def valD (l : List Char) : Nat := l.foldl (fun a c => a * 10 + digitVal c) 0

/-- Whitespace as matched by Python's `\s` / `str.strip` (Unicode). -/
def isWsChar (c : Char) : Bool :=
  c.toNat = 32 || c.toNat = 9 || c.toNat = 10 || c.toNat = 13 || c.toNat = 11 ||
  c.toNat = 12 || (28 ≤ c.toNat && c.toNat ≤ 31) || c.toNat = 0x85 ||
  c.toNat = 0xa0 || c.toNat = 0x1680 || (0x2000 ≤ c.toNat && c.toNat ≤ 0x200a) ||
  c.toNat = 0x2028 || c.toNat = 0x2029 || c.toNat = 0x202f || c.toNat = 0x205f ||
  c.toNat = 0x3000

/-- `_z2h`, character-wise: full-width digits and the full-width colon to
half-width. -/
def z2hChar (c : Char) : Char :=
  if c = '０' then '0' else if c = '１' then '1' else if c = '２' then '2'
  else if c = '３' then '3' else if c = '４' then '4' else if c = '５' then '5'
  else if c = '６' then '6' else if c = '７' then '7' else if c = '８' then '8'
  else if c = '９' then '9' else if c = '：' then ':' else c

/-- `_z2h` on a whole string (`str.translate`). -/
def z2hL (l : List Char) : List Char := l.map z2hChar

/-- `re.sub(r'[　\s]+', ' ', s)`: collapse every whitespace run to one space.
The flag records whether the previous character was part of a run. -/
def collapseWsAux : Bool → List Char → List Char
  | _, [] => []
  | b, c :: cs =>
    if isWsChar c then
      if b then collapseWsAux true cs else ' ' :: collapseWsAux true cs
    else c :: collapseWsAux false cs

/-- `str.strip()`. -/
def stripL (l : List Char) : List Char :=
  (((l.dropWhile isWsChar).reverse.dropWhile isWsChar)).reverse

/-- Whitespace normalization used by `_normalize`: collapse runs, then strip. -/
def wsNormalize (l : List Char) : List Char := stripL (collapseWsAux false l)

/-- Length of a `\(cid:\d+\)` match starting at the head of `l` (which must be
`'('`), if any. -/
def cidMatchLen (l : List Char) : Option Nat :=
  match l with
  | '(' :: 'c' :: 'i' :: 'd' :: ':' :: rest =>
    let ds := rest.takeWhile isPyDigit
    if ds.length = 0 then none
    else
      match rest.drop ds.length with
      | ')' :: _ => some (6 + ds.length)
      | _ => none
  | _ => none

/-- `re.sub(r'\(cid:\d+\)', '', s)`: delete every cid marker, scanning left to
right and continuing after each match.  The fuel argument (initialised to the
string length, consumed once per character examined) only makes the structural
recursion evident; it never runs out. -/
def stripCidFuel : Nat → List Char → List Char
  | 0, _ => []
  | _, [] => []
  | fuel + 1, c :: cs =>
    match cidMatchLen (c :: cs) with
    | some k => stripCidFuel fuel (cs.drop (k - 1))
    | none => c :: stripCidFuel fuel cs

def stripCid (l : List Char) : List Char := stripCidFuel l.length l

/-- `_normalize`: cid-marker removal, `_z2h`, whitespace collapse, strip. -/
def normalizeL (l : List Char) : List Char := wsNormalize (z2hL (stripCid l))

def strL (s : String) : List Char := s.data

/-- All whitespace characters of `l` are plain spaces. -/
def wsOk (l : List Char) : Bool := l.all (fun c => !isWsChar c || c = ' ')

/-- No two adjacent whitespace characters. -/
def noRun : List Char → Bool
  | [] => true
  | [_] => true
  | a :: b :: r => !(isWsChar a && isWsChar b) && noRun (b :: r)

/-- Head (if any) is not whitespace. -/
def headNotWs : List Char → Bool
  | [] => true
  | c :: _ => !isWsChar c

/-- C4 counterexample input: nested cid markers. -/
def c4input : List Char := strL "((cid:1)cid:2)"

/-- Decimal digits of `n` (`f"{n}"`), via a fuel that never runs out. -/
def digitChar (n : Nat) : Char := Char.ofNat (48 + n)

def natDigitsFuel : Nat → Nat → List Char
  | 0, _ => []
  | f + 1, n =>
    if n < 10 then [digitChar n] else natDigitsFuel f (n / 10) ++ [digitChar (n % 10)]

def natDigits (n : Nat) : List Char := natDigitsFuel (n + 1) n

/-- `f"{n:02d}"`. -/
def pad2 (n : Nat) : List Char := if n < 10 then '0' :: natDigits n else natDigits n

/-- `str(n).zfill(2)` on a captured digit string. -/
def zfill2 (l : List Char) : List Char := if l.length = 1 then '0' :: l else l

/-- `date(y, m, d).strftime("%Y-%m-%d")` (glibc strftime does not pad `%Y`,
and all years produced by the scrapers have four digits). -/
def isoDate (y m d : Nat) : List Char :=
  natDigits y ++ '-' :: pad2 m ++ '-' :: pad2 d

/-- `datetime.date` constructor validity: the `try`/`except ValueError` guard. -/
def isLeap (y : Nat) : Bool := y % 4 = 0 && (y % 100 ≠ 0 || y % 400 = 0)

def daysInMonth (y m : Nat) : Nat :=
  if m = 2 then (if isLeap y then 29 else 28)
  else if m = 4 || m = 6 || m = 9 || m = 11 then 30
  else 31

def validDay (y m d : Nat) : Bool :=
  1 ≤ y && y ≤ 9999 && 1 ≤ m && m ≤ 12 && 1 ≤ d && d ≤ daysInMonth y m

/-- Substring test (`kw in text`). -/
def prefixOfL : List Char → List Char → Bool
  | [], _ => true
  | _ :: _, [] => false
  | p :: ps, h :: hs => p = h && prefixOfL ps hs

def containsSub (pat : List Char) : List Char → Bool
  | [] => prefixOfL pat []
  | c :: cs => prefixOfL pat (c :: cs) || containsSub pat cs

/-- `TIME_RE = (\d{1,2}):(\d{2})[〜～ー](\d{1,2}):(\d{2})` matched at the head:
returns hour values, the verbatim minute digits and the match length.  A
backtracked shorter hour group would face another digit where `:` is
required, so the maximal digit run of length 1–2 is the only candidate. -/
def matchTimeRangeAt (l : List Char) : Option (Nat × List Char × Nat × List Char × Nat) :=
  let r1 := l.takeWhile isPyDigit
  if r1.length = 0 || r1.length > 2 then none
  else
    match l.drop r1.length with
    | ':' :: m1 :: m2 :: rest2 =>
      if isPyDigit m1 && isPyDigit m2 then
        match rest2 with
        | sep :: rest3 =>
          if sep = '〜' || sep = '～' || sep = 'ー' then
            let r2 := rest3.takeWhile isPyDigit
            if r2.length = 0 || r2.length > 2 then none
            else
              match rest3.drop r2.length with
              | ':' :: n1 :: n2 :: _ =>
                if isPyDigit n1 && isPyDigit n2 then
                  some (valD r1, [m1, m2], valD r2, [n1, n2],
                    r1.length + 4 + r2.length + 3)
                else none
              | _ => none
          else none
        | [] => none
      else none
    | _ => none

/-- Leftmost `TIME_RE` search. -/
def searchTimeRange : List Char → Option (Nat × List Char × Nat × List Char × Nat)
  | [] => none
  | c :: cs =>
    match matchTimeRangeAt (c :: cs) with
    | some g => some g
    | none => searchTimeRange cs

/-- `_extract_time`: `TIME_RE` on the `_z2h`'d text, formatted `HH:MM〜HH:MM`. -/
def extractTime (text : List Char) : Option (List Char) :=
  match searchTimeRange (z2hL text) with
  | some (h1, m1, h2, m2, _) =>
    some (pad2 h1 ++ ':' :: (m1 ++ '〜' :: (pad2 h2 ++ ':' :: m2)))
  | none => none

/-- `TIME_RE.sub('', s)`: delete every match, continuing after each one. -/
def removeTimeAllFuel : Nat → List Char → List Char
  | 0, _ => []
  | _, [] => []
  | f + 1, c :: cs =>
    match matchTimeRangeAt (c :: cs) with
    | some (_, _, _, _, k) => removeTimeAllFuel f (cs.drop (k - 1))
    | none => c :: removeTimeAllFuel f cs

def removeTimeAll (l : List Char) : List Char := removeTimeAllFuel l.length l

/-- `re.search(r'\d{1,2}:\d{2}', l)` as a Boolean. -/
def matchTimeShortAt (l : List Char) : Bool :=
  let r := l.takeWhile isPyDigit
  if r.length = 0 || r.length > 2 then false
  else
    match l.drop r.length with
    | ':' :: m1 :: m2 :: _ => isPyDigit m1 && isPyDigit m2
    | _ => false

def hasTimeShort : List Char → Bool
  | [] => false
  | c :: cs => matchTimeShortAt (c :: cs) || hasTimeShort cs

/-- One `[（(][^）)]*[）)]` match at the head.  The greedy class run must be
followed by a closer; shorter runs would leave a non-closer there. -/
def parenClassMatchLen (l : List Char) : Option Nat :=
  match l with
  | c :: cs =>
    if c = '（' || c = '(' then
      let inner := cs.takeWhile (fun d => !(d = '）' || d = ')'))
      match cs.drop inner.length with
      | _ :: _ => some (2 + inner.length)
      | [] => none
    else none
  | [] => none

/-- `re.sub(r'[（(][^）)]*[）)]', '', s)`. -/
def removeParensClassFuel : Nat → List Char → List Char
  | 0, _ => []
  | _, [] => []
  | f + 1, c :: cs =>
    match parenClassMatchLen (c :: cs) with
    | some k => removeParensClassFuel f (cs.drop (k - 1))
    | none => c :: removeParensClassFuel f cs

def removeParensC (l : List Char) : List Char := removeParensClassFuel l.length l

/-- One `[\(（].*?[\)）]` match at the head (lazy dot: up to the first closer,
and `.` cannot cross a newline). -/
def parenLazyMatchLen (l : List Char) : Option Nat :=
  match l with
  | c :: cs =>
    if c = '(' || c = '（' then
      let inner := cs.takeWhile (fun d => !(d = ')' || d = '）' || d = '\n'))
      match cs.drop inner.length with
      | d :: _ => if d = ')' || d = '）' then some (2 + inner.length) else none
      | [] => none
    else none
  | [] => none

/-- `re.sub(r'[\(（].*?[\)）]', '', s)` (used by `_is_non_event`). -/
def removeParensLazyFuel : Nat → List Char → List Char
  | 0, _ => []
  | _, [] => []
  | f + 1, c :: cs =>
    match parenLazyMatchLen (c :: cs) with
    | some k => removeParensLazyFuel f (cs.drop (k - 1))
    | none => c :: removeParensLazyFuel f cs

def removeParensL (l : List Char) : List Char := removeParensLazyFuel l.length l

def lowerAscii (c : Char) : Char :=
  if 'A' ≤ c ∧ c ≤ 'Z' then Char.ofNat (c.toNat + 32) else c

/-- `NON_EVENT_RE` (anchored, `re.IGNORECASE`) applied to text whose
whitespace was removed, so `自由\s*あそび` degenerates to a literal. -/
def nonEventCore (t : List Char) : Bool :=
  let u := t.map lowerAscii
  u = strL "自由あそび" || u = strL "休館" || u = strL "休館日" ||
  u = strL "開館" || u = strL "★" || u = strL "閉館" || u = strL "お知らせ" ||
  u = strL "(cid:"

/-- `_is_non_event`: strip paren groups and all whitespace (`strip()` followed
by `re.sub(r'\s','',·)` removes exactly every whitespace character), then test
emptiness or the non-event pattern. -/
def isNonEvent (text : List Char) : Bool :=
  let t := (removeParensL text).filter (fun c => !isWsChar c)
  t.isEmpty || nonEventCore t

/-- `_guess_category`: first matching keyword row wins. -/
def guessCategory (text : List Char) : List Char :=
  if [strL "離乳食", strL "栄養", strL "食育"].any (fun k => containsSub k text) then
    strL "食育・栄養"
  else if [strL "発達", strL "言語", strL "相談", strL "聴覚"].any
      (fun k => containsSub k text) then
    strL "発達・育児相談"
  else if [strL "マッサージ", strL "アロマ", strL "ピラティス", strL "エクササイズ",
      strL "ストレッチ"].any (fun k => containsSub k text) then
    strL "産前・産後"
  else if [strL "ダンス", strL "体操", strL "リトミック", strL "体を動",
      strL "サーキット", strL "運動", strL "体力"].any (fun k => containsSub k text) then
    strL "親子ふれあい"
  else if [strL "おはなし", strL "読み聞かせ", strL "工作", strL "製作",
      strL "おもちゃ", strL "あそび", strL "遊び", strL "ふれあい"].any
      (fun k => containsSub k text) then
    strL "親子ふれあい"
  else if [strL "身体測定", strL "すくすく", strL "ハイハイ", strL "赤ちゃん",
      strL "0歳"].any (fun k => containsSub k text) then
    strL "健康・医療"
  else if [strL "パパ", strL "父", strL "ひとり親"].any (fun k => containsSub k text) then
    strL "父親・家族支援"
  else strL "その他"

abbrev Cell := List Char

abbrev Row := List Cell

def WEEKDAYS : List (List Char) :=
  [strL "月", strL "火", strL "水", strL "木", strL "金", strL "土", strL "日"]

/-- Header detection: positions (and trimmed labels) of weekday cells. -/
def weekdayFound (row : Row) : List (Nat × List Char) :=
  row.enum.filterMap (fun p =>
    if p.2 ≠ [] ∧ stripL p.2 ∈ WEEKDAYS then some (p.1, stripL p.2) else none)

/-- Weekday spans: each end is the next start, the last extends to the row
width. -/
def buildWdCols : List (Nat × List Char) → Nat → List (List Char × Nat × Nat)
  | [], _ => []
  | [(ci, w)], n => [(w, ci, n)]
  | (ci, w) :: (cj, w2) :: rest, n => (w, ci, cj) :: buildWdCols ((cj, w2) :: rest) n

/-- First row with at least five weekday cells; returns the spans and the
rows after the header. -/
def findHeader : List Row → Option (List (List Char × Nat × Nat) × List Row)
  | [] => none
  | row :: rest =>
    let found := weekdayFound row
    if found.length ≥ 5 then some (buildWdCols found row.length, rest)
    else findHeader rest

def getWdBlock (wdCols : List (List Char × Nat × Nat)) (col : Nat) :
    Option (List Char × Nat × Nat) :=
  wdCols.find? (fun t => t.2.1 ≤ col && col < t.2.2)

/-- Date-row cells: bare-digit cells with their column and integer value. -/
def dayCellsOf (row : Row) : List (Nat × Nat) :=
  row.enum.filterMap (fun p =>
    let t := stripL p.2
    if t ≠ [] ∧ t.all isPyDigit then some (p.1, valD (z2hL t)) else none)

def joinChar (sep : Char) : List (List Char) → List Char
  | [] => []
  | [x] => x
  | x :: y :: rest => x ++ sep :: joinChar sep (y :: rest)

def splitNlAux (acc : List Char) : List Char → List (List Char)
  | [] => [acc.reverse]
  | c :: cs => if c = '\n' then acc.reverse :: splitNlAux [] cs else splitNlAux (c :: acc) cs

def splitNl (l : List Char) : List (List Char) := splitNlAux [] l

/-- Per-span content: normalized non-empty cells in `[s, min(e, len))`,
deduplicated, joined by newline. -/
def getBlockContent (contentRow : Row) (s e : Nat) : List Char :=
  let parts := ((contentRow.take e).drop s).foldl
    (fun parts c =>
      if stripL c ≠ [] then
        (if normalizeL c ∈ parts then parts else parts ++ [normalizeL c])
      else parts) []
  joinChar '\n' parts

/-- Description lines: containing a time pattern or starting with a bracket
or annotation glyph. -/
def lineIsDesc (l : List Char) : Bool :=
  hasTimeShort l ||
  (match l with
   | c :: _ => c = '（' || c = '(' || c = '※' || c = '★' || c = '【'
   | [] => false)

/-- Stripped non-empty lines of the cell content (the splitlines/strip/filter
step; plain newline split differs from `splitlines` only by a final empty
piece, which the filter drops either way). -/
def cellLines (raw : List Char) : List (List Char) :=
  ((splitNl raw).map stripL).filter (fun l => l ≠ [])

/-- Title recovery: join non-description lines; when empty, strip paren
groups and time ranges from the raw content instead. -/
def cellTitle (raw : List Char) : List Char :=
  let t0 := stripL (joinChar ' ' ((cellLines raw).filter (fun l => !(lineIsDesc l))))
  if t0 = [] then stripL (collapseWsAux false (stripL (removeTimeAll (removeParensC raw))))
  else t0

def cellDesc (raw : List Char) : List Char :=
  joinChar ' ' ((cellLines raw).filter lineIsDesc)

structure Event where
  title : List Char
  date : List Char
  time : List Char
  description : List Char
  source : List Char
  url : List Char
  category : List Char
deriving DecidableEq, Repr

/-- Processing of one `(column, day)` cell of a date row: the loop body of
`_parse_calendar_table`. -/
def cellEvent (y m : Nat) (source url dt : List Char)
    (wdCols : List (List Char × Nat × Nat)) (contentRow : Row)
    (p : Nat × Nat) : Option Event :=
  match getWdBlock wdCols p.1 with
  | none => none
  | some blk =>
    let raw := getBlockContent contentRow blk.2.1 blk.2.2
    if raw = [] then none
    else if isNonEvent raw then none
    else if isNonEvent (cellTitle raw) then none
    else if validDay y m p.2 then
      some { title := cellTitle raw, date := isoDate y m p.2,
             time := (extractTime raw).getD dt, description := cellDesc raw,
             source := source, url := url,
             category := guessCategory (cellTitle raw ++ cellDesc raw) }
    else none

def rowEvents (y m : Nat) (source url dt : List Char)
    (wdCols : List (List Char × Nat × Nat)) (contentRow : Row)
    (dayCells : List (Nat × Nat)) : List Event :=
  dayCells.filterMap (cellEvent y m source url dt wdCols contentRow)

/-- The scan below the header: a row with at least four digit cells is a date
row whose following row is its content row (two rows consumed); other rows
are skipped one at a time. -/
def walkRows (y m : Nat) (source url dt : List Char)
    (wdCols : List (List Char × Nat × Nat)) : List Row → List Event
  | [] => []
  | [row] =>
    if (dayCellsOf row).length ≥ 4 then
      rowEvents y m source url dt wdCols [] (dayCellsOf row)
    else []
  | row :: row2 :: rest =>
    if (dayCellsOf row).length ≥ 4 then
      rowEvents y m source url dt wdCols row2 (dayCellsOf row) ++
        walkRows y m source url dt wdCols rest
    else walkRows y m source url dt wdCols (row2 :: rest)

/-- `_parse_calendar_table`. -/
def parseCalendarTable (table : List Row) (y m : Nat) (source url : List Char)
    (dt : List Char := strL "10:30〜11:00") : List Event :=
  match findHeader table with
  | none => []
  | some (wdCols, rest) => walkRows y m source url dt wdCols rest

/-- The synthetic Monday-first grid of the spec's calendar-reconstruction
property. -/
def c5grid : List Row :=
  [[strL "月", strL "火", strL "水", strL "木", strL "金", strL "土", strL "日"],
   [strL "1", strL "2", strL "3", strL "4", strL "5", strL "6", strL "7"],
   [[], [], strL "読み聞かせ会 10:30〜11:00", [], [], [], []]]

def c5wd : List (List Char × Nat × Nat) :=
  [(strL "月", 0, 1), (strL "火", 1, 2), (strL "水", 2, 3), (strL "木", 3, 4),
   (strL "金", 4, 5), (strL "土", 5, 6), (strL "日", 6, 7)]

def c5crow : Row := [[], [], strL "読み聞かせ会 10:30〜11:00", [], [], [], []]

def c5ev (y m : Nat) (src url : List Char) : Event :=
  { title := strL "読み聞かせ会", date := isoDate y m 3,
    time := strL "10:30〜11:00",
    description := strL "読み聞かせ会 10:30〜11:00",
    source := src, url := url, category := strL "親子ふれあい" }

/-- The invariant package for every event emitted by the calendar parser. -/
def eventInv (y m : Nat) (src url dt : List Char) (e : Event) : Prop :=
  (∃ d, validDay y m d = true ∧ e.date = isoDate y m d) ∧ e.title ≠ [] ∧
  isNonEvent e.title = false ∧ e.source = src ∧ e.url = url ∧
  (dt ≠ [] → e.time ≠ [])

/-- `re.split(r"[〜～]|から|より", text, maxsplit=1)`: text before the first
separator, and optionally the text after it. -/
def splitTimeSep : List Char → List Char × Option (List Char)
  | [] => ([], none)
  | c :: cs =>
    if c = '〜' || c = '～' then ([], some cs)
    else if prefixOfL (strL "から") (c :: cs) then ([], some ((c :: cs).drop 2))
    else if prefixOfL (strL "より") (c :: cs) then ([], some ((c :: cs).drop 2))
    else
      let r := splitTimeSep cs
      (c :: r.1, r.2)

/-- `(午前|午後)(\d{1,2})時(?:(\d{1,2})分)?` at the head: AM/PM flag, hour and
optional minutes.  The optional minute group matches only when a 1–2 digit
run is followed by 分 (a longer run cannot backtrack into a match). -/
def matchAmPmAt (l : List Char) : Option (Bool × Nat × Option Nat) :=
  match l with
  | '午' :: c :: rest =>
    if c = '前' || c = '後' then
      let r := rest.takeWhile isPyDigit
      if r.length = 0 || r.length > 2 then none
      else
        match rest.drop r.length with
        | '時' :: rest2 =>
          let r2 := rest2.takeWhile isPyDigit
          if 1 ≤ r2.length ∧ r2.length ≤ 2 then
            match rest2.drop r2.length with
            | '分' :: _ => some (c = '後', valD r, some (valD r2))
            | _ => some (c = '後', valD r, none)
          else some (c = '後', valD r, none)
        | _ => none
    else none
  | _ => none

def searchAmPm : List Char → Option (Bool × Nat × Option Nat)
  | [] => none
  | c :: cs =>
    match matchAmPmAt (c :: cs) with
    | some g => some g
    | none => searchAmPm cs

/-- `(\d{1,2})時(?:(\d{1,2})分)?` at the head. -/
def matchKanjiTimeAt (l : List Char) : Option (Nat × Option Nat) :=
  let r := l.takeWhile isPyDigit
  if r.length = 0 || r.length > 2 then none
  else
    match l.drop r.length with
    | '時' :: rest2 =>
      let r2 := rest2.takeWhile isPyDigit
      if 1 ≤ r2.length ∧ r2.length ≤ 2 then
        match rest2.drop r2.length with
        | '分' :: _ => some (valD r, some (valD r2))
        | _ => some (valD r, none)
      else some (valD r, none)
    | _ => none

def searchKanjiTime : List Char → Option (Nat × Option Nat)
  | [] => none
  | c :: cs =>
    match matchKanjiTimeAt (c :: cs) with
    | some g => some g
    | none => searchKanjiTime cs

/-- `(\d{1,2}):(\d{2})` at the head, hour value and verbatim minutes. -/
def matchColonTimeAt (l : List Char) : Option (Nat × List Char) :=
  let r := l.takeWhile isPyDigit
  if r.length = 0 || r.length > 2 then none
  else
    match l.drop r.length with
    | ':' :: m1 :: m2 :: _ =>
      if isPyDigit m1 && isPyDigit m2 then some (valD r, [m1, m2]) else none
    | _ => none

def searchColonTime : List Char → Option (Nat × List Char)
  | [] => none
  | c :: cs =>
    match matchColonTimeAt (c :: cs) with
    | some g => some g
    | none => searchColonTime cs

/-- `to_24h`: PM adds 12 except for 12 itself, AM 12 maps to 0. -/
def to24h (pm : Bool) (h mo : Nat) : List Char :=
  let h1 := if pm = true ∧ h ≠ 12 then h + 12 else h
  let h2 := if pm = false ∧ h1 = 12 then 0 else h1
  pad2 h2 ++ ':' :: pad2 mo

/-- `parse_one`: 正午 literal, full-width colon replacement, then the three
patterns in order. -/
def parseOneTime (s : List Char) : List Char :=
  if s = [] then []
  else if containsSub (strL "正午") s then strL "12:00"
  else
    let s2 := s.map (fun c => if c = '：' then ':' else c)
    match searchAmPm s2 with
    | some (pm, h, mo) => to24h pm h (mo.getD 0)
    | none =>
      match searchKanjiTime s2 with
      | some (h, mo) => pad2 h ++ ':' :: pad2 (mo.getD 0)
      | none =>
        match searchColonTime s2 with
        | some (h, mstr) => pad2 h ++ ':' :: mstr
        | none => []

/-- `re.sub(r"まで.*", "", s)`: cut at the first まで (the input has been
whitespace-collapsed, so `.` reaches the end of the string). -/
def cutMade : List Char → List Char
  | [] => []
  | c :: cs =>
    if prefixOfL (strL "まで") (c :: cs) then [] else c :: cutMade cs

/-- The (start, end) pair computed inside `normalize_time`. -/
def normTimePieces (text : List Char) : List Char × List Char :=
  if text = [] then ([], [])
  else
    let t := collapseWsAux false (stripL text)
    let p := splitTimeSep t
    let start := parseOneTime p.1
    let e :=
      match p.2 with
      | none => parseOneTime []
      | some rest => parseOneTime (cutMade rest)
    (start, e)

/-- `normalize_time`: `HH:MM〜HH:MM` when both ends parse, otherwise the bare
start (possibly empty). -/
def normalizeTime (text : List Char) : List Char :=
  if (normTimePieces text).1 ≠ [] ∧ (normTimePieces text).2 ≠ [] then
    (normTimePieces text).1 ++ '〜' :: (normTimePieces text).2
  else (normTimePieces text).1

def skipWsL (l : List Char) : List Char := l.dropWhile isWsChar

/-- Expect one literal character. -/
def expectLit (lit : Char) : List Char → Option (List Char)
  | [] => none
  | c :: cs => if c = lit then some cs else none

/-- A `\d+` group: the maximal digit run (failing when empty) and the rest. -/
def readDigits (l : List Char) : Option (List Char × List Char) :=
  if l.takeWhile isPyDigit = [] then none
  else some (l.takeWhile isPyDigit, l.dropWhile isPyDigit)

/-- `令和\s*(\d+)\s*年\s*(\d{1,2})\s*月\s*(\d{1,2})\s*日` at the head: era
year value and the verbatim month/day digit strings.  A `\d{1,2}` group is
the maximal digit run of length at most two: a shorter, backtracked take
would leave another digit where the following literal must sit. -/
def matchReiwaYMDAt (l : List Char) : Option (Nat × List Char × List Char) :=
  match expectLit '令' l with
  | none => none
  | some l1 =>
  match expectLit '和' l1 with
  | none => none
  | some l2 =>
  match readDigits (skipWsL l2) with
  | none => none
  | some (n, l3) =>
  match expectLit '年' (skipWsL l3) with
  | none => none
  | some l4 =>
  match readDigits (skipWsL l4) with
  | none => none
  | some (m, l5) =>
  if m.length > 2 then none
  else
  match expectLit '月' (skipWsL l5) with
  | none => none
  | some l6 =>
  match readDigits (skipWsL l6) with
  | none => none
  | some (d, l7) =>
  if d.length > 2 then none
  else
  match expectLit '日' (skipWsL l7) with
  | none => none
  | some _ => some (valD n, m, d)

def searchReiwaYMD : List Char → Option (Nat × List Char × List Char)
  | [] => none
  | c :: cs =>
    match matchReiwaYMDAt (c :: cs) with
    | some g => some g
    | none => searchReiwaYMD cs

/-- `(\d{4})\s*年\s*(\d{1,2})\s*月\s*(\d{1,2})\s*日` at the head (a digit run
longer than four cannot match: the fifth digit sits where `\s*年` must). -/
def matchYMDAt (l : List Char) : Option (List Char × List Char × List Char) :=
  let yy := l.takeWhile isPyDigit
  if yy.length ≠ 4 then none
  else
    match skipWsL (l.drop 4) with
    | '年' :: rest2 =>
      let r1 := skipWsL rest2
      let m := r1.takeWhile isPyDigit
      if m.length = 0 || m.length > 2 then none
      else
        match skipWsL (r1.drop m.length) with
        | '月' :: rest3 =>
          let r2 := skipWsL rest3
          let d := r2.takeWhile isPyDigit
          if d.length = 0 || d.length > 2 then none
          else
            match skipWsL (r2.drop d.length) with
            | '日' :: _ => some (yy, m, d)
            | _ => none
        | _ => none
    | _ => none

def searchYMD : List Char → Option (List Char × List Char × List Char)
  | [] => none
  | c :: cs =>
    match matchYMDAt (c :: cs) with
    | some g => some g
    | none => searchYMD cs

/-- `(\d{1,2})\s*月\s*(\d{1,2})\s*日` at the head, integer groups. -/
def matchMDAt (l : List Char) : Option (Nat × Nat) :=
  let m := l.takeWhile isPyDigit
  if m.length = 0 || m.length > 2 then none
  else
    match skipWsL (l.drop m.length) with
    | '月' :: rest2 =>
      let r1 := skipWsL rest2
      let d := r1.takeWhile isPyDigit
      if d.length = 0 || d.length > 2 then none
      else
        match skipWsL (r1.drop d.length) with
        | '日' :: _ => some (valD m, valD d)
        | _ => none
    | _ => none

def searchMD : List Char → Option (Nat × Nat)
  | [] => none
  | c :: cs =>
    match matchMDAt (c :: cs) with
    | some g => some g
    | none => searchMD cs

/-- `normalize_date`.  `datetime.now().year` is passed in as `nowYear`; the
falsy-`or` defaulting of `base_year`/`base_month` is modelled by `Option`. -/
def normalizeDate (nowYear : Nat) (text : List Char)
    (baseYear baseMonth : Option Nat) : List Char :=
  if text = [] then []
  else
    let t := stripL text
    let year := baseYear.getD nowYear
    match searchReiwaYMD t with
    | some (n, m, d) =>
      natDigits (2018 + n) ++ '-' :: (zfill2 m ++ '-' :: zfill2 d)
    | none =>
      match searchYMD t with
      | some (yy, m, d) => yy ++ '-' :: (zfill2 m ++ '-' :: zfill2 d)
      | none =>
        match searchMD t with
        | some (mo, dy) =>
          let y :=
            match baseMonth with
            | some bm => if mo < bm then year + 1 else year
            | none => year
          natDigits y ++ '-' :: (pad2 mo ++ '-' :: pad2 dy)
        | none => []

/-- `令和\s*(\d+)\s*年\s*(\d+)\s*月` at the head (not followed by a 年度
requirement: the fiscal form fails here because 度 sits where 月 must). -/
def matchReiwaYMAt (l : List Char) : Option (Nat × Nat) :=
  match expectLit '令' l with
  | none => none
  | some l1 =>
  match expectLit '和' l1 with
  | none => none
  | some l2 =>
  match readDigits (skipWsL l2) with
  | none => none
  | some (n, l3) =>
  match expectLit '年' (skipWsL l3) with
  | none => none
  | some l4 =>
  match readDigits (skipWsL l4) with
  | none => none
  | some (m, l5) =>
  match expectLit '月' (skipWsL l5) with
  | none => none
  | some _ => some (valD n, valD m)

def searchReiwaYM : List Char → Option (Nat × Nat)
  | [] => none
  | c :: cs =>
    match matchReiwaYMAt (c :: cs) with
    | some g => some g
    | none => searchReiwaYM cs

/-- `(20\d{2})\s*年\s*(\d{1,2})\s*月` at the head. -/
def match20YMAt (l : List Char) : Option (Nat × Nat) :=
  match l with
  | '2' :: '0' :: d1 :: d2 :: rest =>
    if isPyDigit d1 && isPyDigit d2 then
      match skipWsL rest with
      | '年' :: rest2 =>
        let r1 := skipWsL rest2
        let m := r1.takeWhile isPyDigit
        if m.length = 0 || m.length > 2 then none
        else
          match skipWsL (r1.drop m.length) with
          | '月' :: _ => some (valD ['2', '0', d1, d2], valD m)
          | _ => none
      | _ => none
    else none
  | _ => none

def search20YM : List Char → Option (Nat × Nat)
  | [] => none
  | c :: cs =>
    match match20YMAt (c :: cs) with
    | some g => some g
    | none => search20YM cs

/-- `[（(](20\d{2})年[）)]` at the head. -/
def matchParenYearAt (l : List Char) : Option Nat :=
  match l with
  | p :: '2' :: '0' :: d1 :: d2 :: '年' :: q :: _ =>
    if (p = '（' || p = '(') && isPyDigit d1 && isPyDigit d2 &&
        (q = '）' || q = ')') then
      some (valD ['2', '0', d1, d2])
    else none
  | _ => none

def searchParenYear : List Char → Option Nat
  | [] => none
  | c :: cs =>
    match matchParenYearAt (c :: cs) with
    | some g => some g
    | none => searchParenYear cs

/-- `(\d+)月号` at the head. -/
def matchGatsugoAt (l : List Char) : Option Nat :=
  let r := l.takeWhile isPyDigit
  if r = [] then none
  else
    match l.drop r.length with
    | '月' :: '号' :: _ => some (valD r)
    | _ => none

def searchGatsugo : List Char → Option Nat
  | [] => none
  | c :: cs =>
    match matchGatsugoAt (c :: cs) with
    | some g => some g
    | none => searchGatsugo cs

/-- `令和\s*(\d+)\s*年度` at the head. -/
def matchNendoAt (l : List Char) : Option Nat :=
  match l with
  | '令' :: '和' :: rest =>
    let r0 := skipWsL rest
    let n := r0.takeWhile isPyDigit
    if n = [] then none
    else
      match skipWsL (r0.drop n.length) with
      | '年' :: '度' :: _ => some (valD n)
      | _ => none
  | _ => none

def searchNendo : List Char → Option Nat
  | [] => none
  | c :: cs =>
    match matchNendoAt (c :: cs) with
    | some g => some g
    | none => searchNendo cs

/-- `(\d{1,2})\s*月` at the head. -/
def matchTsukiAt (l : List Char) : Option Nat :=
  let r := l.takeWhile isPyDigit
  if r.length = 0 || r.length > 2 then none
  else
    match skipWsL (l.drop r.length) with
    | '月' :: _ => some (valD r)
    | _ => none

def searchTsuki : List Char → Option Nat
  | [] => none
  | c :: cs =>
    match matchTsukiAt (c :: cs) with
    | some g => some g
    | none => searchTsuki cs

/-- `_get_year_month_from_pdf_text`: 令和-year-month, Gregorian year-month,
parenthesized year with 月号 issue month, or fiscal 年度 with a nearby bare
month (months ≤ 3 belong to the next calendar year), else the fallback. -/
def getYearMonthFromPdfText (text : List Char) (fy fm : Nat) : Nat × Nat :=
  let t := z2hL text
  match searchReiwaYM t with
  | some g => (g.1 + 2018, g.2)
  | none =>
    match search20YM t with
    | some g => g
    | none =>
      match searchParenYear t, searchGatsugo t with
      | some yy, some mo => (yy, mo)
      | _, _ =>
        match searchNendo t, searchTsuki (t.take 150) with
        | some reiwa, some mo =>
          (reiwa + 2018 + (if mo ≤ 3 then 1 else 0), mo)
        | _, _ => (fy, fm)

/-- `D:(\d{4})(\d{2})(\d{2})` at the head: creation year and month. -/
def matchCreationAt (l : List Char) : Option (Nat × Nat) :=
  match l with
  | 'D' :: ':' :: a :: b :: c :: d :: e :: f :: g :: h :: _ =>
    if [a, b, c, d, e, f, g, h].all isPyDigit then
      some (valD [a, b, c, d], valD [e, f])
    else none
  | _ => none

def searchCreation : List Char → Option (Nat × Nat)
  | [] => none
  | c :: cs =>
    match matchCreationAt (c :: cs) with
    | some g => some g
    | none => searchCreation cs

/-- `_get_year_month_from_metadata`, with the metadata dictionary reduced to
its `CreationDate` string: text resolver first, then 月号 paired with the
creation year (rolling to the next year when the issue month precedes the
creation month), then the month after the creation date, else the fallback. -/
def getYearMonthFromMetadata (creationDate text : List Char) (fy fm : Nat) :
    Nat × Nat :=
  let r := getYearMonthFromPdfText text 0 0
  if r.1 ≠ 0 then r
  else
    match searchGatsugo (z2hL text), searchCreation creationDate with
    | some mo, some cd => if mo ≥ cd.2 then (cd.1, mo) else (cd.1 + 1, mo)
    | _, _ =>
      match searchCreation creationDate with
      | some cd => if cd.2 + 1 > 12 then (cd.1 + 1, 1) else (cd.1, cd.2 + 1)
      | none => (fy, fm)

structure CommonEvent where
  title : List Char
  date_raw : List Char
  date_iso : List Char
  time_raw : List Char
  location : List Char
  apply_info : List Char
  category : List Char
  target_age : List Char
  url : List Char
  source : List Char
  needs_reservation : Bool
  body_preview : List Char
deriving DecidableEq, Repr

/-- `make_event`: prefix the display title with ★ when a reservation is
needed (the `needs_reservation` parameter defaults to `False` in the
source). -/
def make_event (title date_raw date_iso time_raw location apply_info category
    target_age url source : List Char) (needs_reservation : Bool) :
    CommonEvent :=
  { title := if needs_reservation then '★' :: title else title,
    date_raw := date_raw, date_iso := date_iso, time_raw := time_raw,
    location := location, apply_info := apply_info, category := category,
    target_age := target_age, url := url, source := source,
    needs_reservation := needs_reservation, body_preview := [] }

/-- `title.startswith("★")`. -/
def startsStar (l : List Char) : Bool :=
  match l with
  | [] => false
  | c :: _ => c = '★'

/-- The reservation test of `_hall_event_to_common`. -/
def hallNeedsRes (ev : Event) : Bool :=
  startsStar ev.title || containsSub (strL "申込") ev.description ||
  containsSub (strL "予約") ev.description

/-- `_hall_event_to_common`. -/
def hallEventToCommon (ev : Event) : CommonEvent :=
  { title := if startsStar ev.title then ev.title
             else if hallNeedsRes ev then '★' :: ev.title else ev.title,
    date_raw := ev.date, date_iso := ev.date, time_raw := ev.time,
    location := ev.source,
    apply_info := if ev.description = [] then [] else ev.description.take 100,
    category := ev.category, target_age := strL "指定なし",
    url := ev.url, source := ev.source,
    needs_reservation := hallNeedsRes ev, body_preview := [] }

/-- One entry of `HALL_CONFIGS` together with its scraper; the scraper is an
abstract fallible adapter (`pdfplumber` parsing can raise). -/
structure HallCfg where
  source : List Char
  url : List Char
  scraper : List Char → Except Unit (List Event)
  pdfUrl : Option (List Char)

/-- `pdf_map` lookup (`source in pdf_map`). -/
def lookupPdf (pdfMap : List (List Char × List Char)) (src : List Char) :
    Option (List Char) :=
  (pdfMap.find? (fun p => p.1 == src)).map (fun p => p.2)

/-- PDF byte acquisition: the map first, then `_fetch_pdf_bytes` (which may
fail, an external fetch collaborator), else skip. -/
def getPdfBytes (fetch : List Char → Option (List Char))
    (pdfMap : List (List Char × List Char)) (cfg : HallCfg) :
    Option (List Char) :=
  match lookupPdf pdfMap cfg.source with
  | some b => some b
  | none =>
    match cfg.pdfUrl with
    | some u => fetch u
    | none => none

/-- The body of the `scrape_all_halls` loop: skip on missing/empty bytes,
extend on success, swallow the exception (log only) on failure. -/
def hallStep (fetch : List Char → Option (List Char))
    (pdfMap : List (List Char × List Char)) (acc : List Event)
    (cfg : HallCfg) : List Event :=
  match getPdfBytes fetch pdfMap cfg with
  | none => acc
  | some b =>
    if b = [] then acc
    else
      match cfg.scraper b with
      | Except.ok evs => acc ++ evs
      | Except.error _ => acc

/-- `scrape_all_halls`. -/
def scrapeAllHalls (fetch : List Char → Option (List Char))
    (cfgs : List HallCfg) (pdfMap : List (List Char × List Char)) :
    List Event :=
  cfgs.foldl (hallStep fetch pdfMap) []

/-- Witness for `c6_adapter_isolation`: a raising scraper next to a
succeeding one. -/
def c6okCfg : HallCfg :=
  { source := strL "B", url := strL "u", pdfUrl := none,
    scraper := fun _ => Except.ok [c5ev 2026 2 (strL "B") (strL "u")] }

def c6badCfg : HallCfg :=
  { source := strL "A", url := strL "u", pdfUrl := none,
    scraper := fun _ => Except.error () }

/-- A source's contribution to `scrape`: its events on success, nothing when
its `try` block raised. -/
def okList : Except Unit (List CommonEvent) → List CommonEvent
  | Except.ok l => l
  | Except.error _ => []

/-- The sort key `e.get("date_iso") or "9999"`. -/
def sortKey (e : CommonEvent) : List Char :=
  if e.date_iso = [] then strL "9999" else e.date_iso

/-- Python string `<=` (lexicographic by code point). -/
def lexLe : List Char → List Char → Bool
  | [], _ => true
  | _ :: _, [] => false
  | a :: as, b :: bs => if a = b then lexLe as bs else decide (a < b)

/-- The aggregation boundary of `scrape`: each source's result (a fallible
external scrape) is appended in order A, B, C, D, then the whole list is
sorted (stably) by date key.  No deduplication is performed. -/
def scrapeAgg (ra rb rc rd : Except Unit (List CommonEvent)) :
    List CommonEvent :=
  (okList ra ++ okList rb ++ okList rc ++ okList rd).mergeSort
    (fun a b => lexLe (sortKey a) (sortKey b))

def c1ev : CommonEvent :=
  { title := strL "★t", date_raw := strL "3月1日", date_iso := strL "2026-03-01",
    time_raw := [], location := [], apply_info := [], category := strL "その他",
    target_age := strL "指定なし", url := strL "u", source := strL "S",
    needs_reservation := true, body_preview := [] }

theorem z2hChar_idem (c : Char) : z2hChar (z2hChar c) = z2hChar c := by
  by_cases h0 : c = '０'
  · subst h0; decide
  by_cases h1 : c = '１'
  · subst h1; decide
  by_cases h2 : c = '２'
  · subst h2; decide
  by_cases h3 : c = '３'
  · subst h3; decide
  by_cases h4 : c = '４'
  · subst h4; decide
  by_cases h5 : c = '５'
  · subst h5; decide
  by_cases h6 : c = '６'
  · subst h6; decide
  by_cases h7 : c = '７'
  · subst h7; decide
  by_cases h8 : c = '８'
  · subst h8; decide
  by_cases h9 : c = '９'
  · subst h9; decide
  by_cases h10 : c = '：'
  · subst h10; decide
  have hc : z2hChar c = c := by
    unfold z2hChar
    rw [if_neg h0, if_neg h1, if_neg h2, if_neg h3, if_neg h4, if_neg h5,
      if_neg h6, if_neg h7, if_neg h8, if_neg h9, if_neg h10]
  rw [hc, hc]

theorem collapseWsAux_mem {c : Char} :
    ∀ (b : Bool) (l : List Char), c ∈ collapseWsAux b l → c = ' ' ∨ c ∈ l := by
  intro b l
  induction l generalizing b with
  | nil => intro h; simp [collapseWsAux] at h
  | cons a t ih =>
    intro h
    unfold collapseWsAux at h
    by_cases ha : isWsChar a
    · simp only [ha, if_true] at h
      cases b with
      | true =>
        simp only [if_true] at h
        rcases ih true h with h1 | h1
        · exact Or.inl h1
        · exact Or.inr (List.mem_cons_of_mem _ h1)
      | false =>
        simp only [Bool.false_eq_true, if_false, List.mem_cons] at h
        rcases h with h1 | h1
        · exact Or.inl h1
        · rcases ih true h1 with h2 | h2
          · exact Or.inl h2
          · exact Or.inr (List.mem_cons_of_mem _ h2)
    · simp only [ha, Bool.false_eq_true, if_false, List.mem_cons] at h
      rcases h with h1 | h1
      · exact Or.inr (by simp [h1])
      · rcases ih false h1 with h2 | h2
        · exact Or.inl h2
        · exact Or.inr (List.mem_cons_of_mem _ h2)

theorem stripL_mem {c : Char} {l : List Char} (h : c ∈ stripL l) : c ∈ l := by
  unfold stripL at h
  rw [List.mem_reverse] at h
  have h1 := (List.dropWhile_sublist (l := (l.dropWhile isWsChar).reverse)
    (p := isWsChar)).subset h
  rw [List.mem_reverse] at h1
  exact (List.dropWhile_sublist (l := l) (p := isWsChar)).subset h1

/-- Every character of a `_normalize` output is a fixed point of `z2hChar`. -/
theorem normalizeL_char_fixed {c : Char} {l : List Char} (h : c ∈ normalizeL l) :
    z2hChar c = c := by
  unfold normalizeL wsNormalize at h
  have h1 := stripL_mem h
  rcases collapseWsAux_mem false _ h1 with h2 | h2
  · subst h2; rfl
  · unfold z2hL at h2
    rcases List.mem_map.mp h2 with ⟨a, _, rfl⟩
    exact z2hChar_idem a

theorem map_fixed_eq_self {f : Char → Char} :
    ∀ {l : List Char}, (∀ c ∈ l, f c = c) → l.map f = l := by
  intro l
  induction l with
  | nil => intro; rfl
  | cons a t ih =>
    intro h
    simp only [List.map_cons]
    rw [h a (by simp), ih (fun c hc => h c (List.mem_cons_of_mem _ hc))]

theorem noRun_tail {a : Char} {l : List Char} (h : noRun (a :: l) = true) :
    noRun l = true := by
  cases l with
  | nil => rfl
  | cons b r =>
    unfold noRun at h
    rw [Bool.and_eq_true] at h
    exact h.2

theorem wsOk_collapseWsAux : ∀ (b : Bool) (l : List Char),
    wsOk (collapseWsAux b l) = true := by
  intro b l
  induction l generalizing b with
  | nil => rfl
  | cons a t ih =>
    unfold collapseWsAux
    by_cases ha : isWsChar a
    · simp only [ha, if_true]
      cases b with
      | true => simpa using ih true
      | false =>
        simp only [Bool.false_eq_true, if_false]
        have := ih true
        unfold wsOk at this ⊢
        simp_all
    · simp only [ha, Bool.false_eq_true, if_false]
      have := ih false
      unfold wsOk at this ⊢
      simp_all

theorem headNotWs_collapseWsAux_true : ∀ (l : List Char),
    headNotWs (collapseWsAux true l) = true := by
  intro l
  induction l with
  | nil => rfl
  | cons a t ih =>
    unfold collapseWsAux
    by_cases ha : isWsChar a
    · simpa [ha] using ih
    · simp [ha, headNotWs]

theorem noRun_cons_of_headNot {a : Char} {l : List Char}
    (hl : noRun l = true) (h : isWsChar a = false ∨ headNotWs l = true) :
    noRun (a :: l) = true := by
  cases l with
  | nil => rfl
  | cons b r =>
    unfold noRun
    rcases h with h | h
    · simp [h, hl]
    · have hb : isWsChar b = false := by
        unfold headNotWs at h
        simpa using h
      simp [hb, hl]

theorem noRun_collapseWsAux : ∀ (b : Bool) (l : List Char),
    noRun (collapseWsAux b l) = true := by
  intro b l
  induction l generalizing b with
  | nil => rfl
  | cons a t ih =>
    unfold collapseWsAux
    by_cases ha : isWsChar a
    · simp only [ha, if_true]
      cases b with
      | true => exact ih true
      | false =>
        simp only [Bool.false_eq_true, if_false]
        exact noRun_cons_of_headNot (ih true)
          (Or.inr (headNotWs_collapseWsAux_true t))
    · simp only [ha, Bool.false_eq_true, if_false]
      exact noRun_cons_of_headNot (ih false) (Or.inl (by simpa using ha))

theorem headNotWs_dropWhile (l : List Char) :
    headNotWs (l.dropWhile isWsChar) = true := by
  induction l with
  | nil => rfl
  | cons a t ih =>
    rw [List.dropWhile_cons]
    by_cases ha : isWsChar a
    · simpa [ha] using ih
    · simp [ha, headNotWs]

theorem noRun_dropWhile {l : List Char} (h : noRun l = true) :
    noRun (l.dropWhile isWsChar) = true := by
  induction l with
  | nil => exact h
  | cons a t ih =>
    rw [List.dropWhile_cons]
    by_cases ha : isWsChar a
    · simp only [ha, if_true]
      exact ih (noRun_tail h)
    · simpa [ha] using h

/-- `noRun` in terms of `List.Chain'`, to transport across `reverse`. -/
theorem noRun_iff_chain : ∀ (l : List Char),
    noRun l = true ↔ l.Chain' (fun a b => ¬(isWsChar a = true ∧ isWsChar b = true)) := by
  intro l
  induction l with
  | nil => simp [noRun]
  | cons a t ih =>
    cases t with
    | nil => simp [noRun]
    | cons b r =>
      unfold noRun
      rw [Bool.and_eq_true, List.chain'_cons, ← ih]
      constructor
      · rintro ⟨h1, h2⟩
        refine ⟨?_, h2⟩
        intro ⟨hx, hy⟩
        simp [hx, hy] at h1
      · rintro ⟨h1, h2⟩
        refine ⟨?_, h2⟩
        by_cases hx : isWsChar a <;> by_cases hy : isWsChar b <;> simp_all

theorem noRun_reverse {l : List Char} (h : noRun l = true) :
    noRun l.reverse = true := by
  rw [noRun_iff_chain] at h ⊢
  rw [List.chain'_reverse]
  exact h.imp (fun hx => by tauto)

theorem wsOk_sub {l m : List Char} (hsub : ∀ c ∈ m, c ∈ l)
    (h : wsOk l = true) : wsOk m = true := by
  unfold wsOk at h ⊢
  rw [List.all_eq_true] at h ⊢
  exact fun c hc => h c (hsub c hc)

theorem headNotWs_of_prefix {p d : List Char} (hpre : p <+: d)
    (hh : headNotWs d = true) : headNotWs p = true := by
  rcases hpre with ⟨t, ht⟩
  cases p with
  | nil => rfl
  | cons x xs =>
    rw [← ht] at hh
    exact hh

theorem rstrip_props {d1 : List Char} (hok1 : wsOk d1 = true)
    (hnr1 : noRun d1 = true) (hh1 : headNotWs d1 = true) :
    wsOk (d1.reverse.dropWhile isWsChar).reverse = true ∧
    noRun (d1.reverse.dropWhile isWsChar).reverse = true ∧
    headNotWs (d1.reverse.dropWhile isWsChar).reverse = true ∧
    headNotWs (d1.reverse.dropWhile isWsChar).reverse.reverse = true := by
  have hok2 : wsOk (d1.reverse.dropWhile isWsChar).reverse = true := by
    refine wsOk_sub (fun c hc => ?_) hok1
    rw [List.mem_reverse] at hc
    have := (List.dropWhile_sublist (l := d1.reverse) (p := isWsChar)).subset hc
    rwa [List.mem_reverse] at this
  have hnr2 : noRun (d1.reverse.dropWhile isWsChar).reverse = true :=
    noRun_reverse (noRun_dropWhile (noRun_reverse hnr1))
  have hlast : headNotWs (d1.reverse.dropWhile isWsChar).reverse.reverse = true := by
    rw [List.reverse_reverse]
    exact headNotWs_dropWhile d1.reverse
  have hpre : (d1.reverse.dropWhile isWsChar).reverse <+: d1 := by
    have hs : d1.reverse.dropWhile isWsChar <:+ d1.reverse :=
      List.dropWhile_suffix _
    have := List.reverse_prefix.mpr hs
    rwa [List.reverse_reverse] at this
  exact ⟨hok2, hnr2, headNotWs_of_prefix hpre hh1, hlast⟩

theorem stripL_props {l : List Char} (hok : wsOk l = true) (hnr : noRun l = true) :
    wsOk (stripL l) = true ∧ noRun (stripL l) = true ∧
    headNotWs (stripL l) = true ∧ headNotWs (stripL l).reverse = true := by
  have hok1 : wsOk (l.dropWhile isWsChar) = true :=
    wsOk_sub (fun c hc => (List.dropWhile_sublist _).subset hc) hok
  have hnr1 : noRun (l.dropWhile isWsChar) = true := noRun_dropWhile hnr
  have hh1 : headNotWs (l.dropWhile isWsChar) = true := headNotWs_dropWhile l
  exact rstrip_props hok1 hnr1 hh1

theorem collapseWsAux_fixed : ∀ (l : List Char), wsOk l = true → noRun l = true →
    collapseWsAux false l = l ∧ (headNotWs l = true → collapseWsAux true l = l) := by
  intro l
  induction l with
  | nil => intro _ _; exact ⟨rfl, fun _ => rfl⟩
  | cons a t ih =>
    intro hok hnr
    have hok' : wsOk t = true := by
      unfold wsOk at hok ⊢
      rw [List.all_eq_true] at hok ⊢
      exact fun c hc => hok c (List.mem_cons_of_mem _ hc)
    have hnr' : noRun t = true := noRun_tail hnr
    rcases ih hok' hnr' with ⟨ihf, iht⟩
    by_cases ha : isWsChar a
    · have hsp : a = ' ' := by
        unfold wsOk at hok
        rw [List.all_eq_true] at hok
        have := hok a (by simp)
        simp [ha] at this
        exact this
      have hht : headNotWs t = true := by
        cases t with
        | nil => rfl
        | cons b r =>
          unfold noRun at hnr
          rw [Bool.and_eq_true] at hnr
          have h1 := hnr.1
          rw [ha] at h1
          have hb : isWsChar b = false := by simpa using h1
          unfold headNotWs
          simp [hb]
      constructor
      · unfold collapseWsAux
        simp only [ha, if_true, Bool.false_eq_true, if_false]
        rw [iht hht, hsp]
      · intro hh
        unfold headNotWs at hh
        simp [ha] at hh
    · constructor
      · unfold collapseWsAux
        simp only [ha, Bool.false_eq_true, if_false]
        rw [ihf]
      · intro _
        unfold collapseWsAux
        simp only [ha, Bool.false_eq_true, if_false]
        rw [ihf]

theorem stripL_fixed {l : List Char} (hh : headNotWs l = true)
    (hl : headNotWs l.reverse = true) : stripL l = l := by
  unfold stripL
  have h1 : l.dropWhile isWsChar = l := by
    cases l with
    | nil => rfl
    | cons a t =>
      unfold headNotWs at hh
      rw [List.dropWhile_cons, if_neg (by simpa using hh)]
  rw [h1]
  have h2 : l.reverse.dropWhile isWsChar = l.reverse := by
    cases hr : l.reverse with
    | nil => rfl
    | cons a t =>
      rw [hr] at hl
      unfold headNotWs at hl
      rw [List.dropWhile_cons, if_neg (by simpa using hl)]
  rw [h2, List.reverse_reverse]

/-- C4: the claim `_normalize(_normalize(x)) = _normalize(x)` for every `x`
fails at `"((cid:1)cid:2)"`: one pass leaves `"(cid:2)"`, the second deletes
it. -/
theorem c4_counterexample :
    ¬ (normalizeL (normalizeL c4input) = normalizeL c4input) := by
  decide

/-- C4 (amended): `_normalize` is idempotent on every input whose normalized
form contains no `(cid:N)` marker (cid removal is the only non-idempotent
stage; one removal pass can splice a new marker together). -/
theorem c4_amended (l : List Char)
    (h : stripCid (normalizeL l) = normalizeL l) :
    normalizeL (normalizeL l) = normalizeL l := by
  have hz : z2hL (normalizeL l) = normalizeL l :=
    map_fixed_eq_self (fun c hc => normalizeL_char_fixed hc)
  have hprops := stripL_props (l := collapseWsAux false (z2hL (stripCid l)))
    (wsOk_collapseWsAux false _) (noRun_collapseWsAux false _)
  have hok : wsOk (normalizeL l) = true := hprops.1
  have hnr : noRun (normalizeL l) = true := hprops.2.1
  have hh : headNotWs (normalizeL l) = true := hprops.2.2.1
  have hlast : headNotWs (normalizeL l).reverse = true := hprops.2.2.2
  calc normalizeL (normalizeL l)
      = wsNormalize (z2hL (stripCid (normalizeL l))) := rfl
    _ = wsNormalize (z2hL (normalizeL l)) := by rw [h]
    _ = wsNormalize (normalizeL l) := by rw [hz]
    _ = stripL (collapseWsAux false (normalizeL l)) := rfl
    _ = stripL (normalizeL l) := by rw [(collapseWsAux_fixed _ hok hnr).1]
    _ = normalizeL l := stripL_fixed hh hlast

/-- Witness for `c4_amended` at a concrete input. -/
theorem c4_amended_witness :
    normalizeL (normalizeL (strL "１　2")) = normalizeL (strL "１　2") :=
  c4_amended (strL "１　2") (by decide)

/-- C5: on the synthetic Monday-header grid with date row 1..7 and a single
populated content cell in day 3's column, `_parse_calendar_table` returns
exactly one event: day 3 of the supplied year/month, title 読み聞かせ会,
time 10:30〜11:00. -/
theorem c5_synthetic_grid (y m : Nat) (src url dt : List Char)
    (h : validDay y m 3 = true) :
    parseCalendarTable c5grid y m src url dt = [c5ev y m src url] := by
  have hstep : parseCalendarTable c5grid y m src url dt =
      rowEvents y m src url dt c5wd c5crow
        [(0, 1), (1, 2), (2, 3), (3, 4), (4, 5), (5, 6), (6, 7)] ++ [] := rfl
  have hc3 : cellEvent y m src url dt c5wd c5crow (2, 3) =
      if validDay y m 3 = true then some (c5ev y m src url) else none := rfl
  have hsome : cellEvent y m src url dt c5wd c5crow (2, 3) =
      some (c5ev y m src url) := by rw [hc3, h]; simp
  have h1 : cellEvent y m src url dt c5wd c5crow (0, 1) = none := rfl
  have h2 : cellEvent y m src url dt c5wd c5crow (1, 2) = none := rfl
  have h4 : cellEvent y m src url dt c5wd c5crow (3, 4) = none := rfl
  have h5 : cellEvent y m src url dt c5wd c5crow (4, 5) = none := rfl
  have h6 : cellEvent y m src url dt c5wd c5crow (5, 6) = none := rfl
  have h7 : cellEvent y m src url dt c5wd c5crow (6, 7) = none := rfl
  rw [hstep]
  unfold rowEvents
  rw [List.filterMap_cons_none h1, List.filterMap_cons_none h2,
    List.filterMap_cons_some hsome, List.filterMap_cons_none h4,
    List.filterMap_cons_none h5, List.filterMap_cons_none h6,
    List.filterMap_cons_none h7]
  simp

/-- Witness for `c5_synthetic_grid` at February 2026. -/
theorem c5_synthetic_grid_witness :
    parseCalendarTable c5grid 2026 2 (strL "幸田児童館") (strL "u") (strL "dt")
      = [c5ev 2026 2 (strL "幸田児童館") (strL "u")] :=
  c5_synthetic_grid 2026 2 (strL "幸田児童館") (strL "u") (strL "dt") (by decide)

/-- C3: a date cell whose day number is out of range for the target
year/month yields no event and no failure, and the events of a date row are
exactly the concatenation of the other cells' events: the out-of-range cell
can be excised without affecting the rest of the row. -/
theorem c3_out_of_range_day (y m : Nat) (src url dt : List Char)
    (wdCols : List (List Char × Nat × Nat)) (contentRow : Row) (ci d : Nat)
    (pre suf : List (Nat × Nat)) (h : validDay y m d = false) :
    rowEvents y m src url dt wdCols contentRow (pre ++ (ci, d) :: suf) =
      rowEvents y m src url dt wdCols contentRow pre ++
        rowEvents y m src url dt wdCols contentRow suf := by
  have hnone : cellEvent y m src url dt wdCols contentRow (ci, d) = none := by
    unfold cellEvent
    cases hblk : getWdBlock wdCols ci with
    | none => simp only [hblk]
    | some blk =>
      simp only [hblk]
      split_ifs with h1 h2 h3 h4
      · rfl
      · rfl
      · rfl
      · exact absurd h4 (by simp [h])
      · rfl
  unfold rowEvents
  rw [List.filterMap_append, List.filterMap_cons_none hnone]

/-- Witness for `c3_out_of_range_day`: April 31 is dropped while the day-3
cell of the same row is still processed. -/
theorem c3_out_of_range_day_witness :
    rowEvents 2025 4 (strL "s") (strL "u") (strL "dt") c5wd c5crow
        ([(2, 3)] ++ (0, 31) :: []) =
      rowEvents 2025 4 (strL "s") (strL "u") (strL "dt") c5wd c5crow [(2, 3)] ++
        rowEvents 2025 4 (strL "s") (strL "u") (strL "dt") c5wd c5crow [] :=
  c3_out_of_range_day 2025 4 (strL "s") (strL "u") (strL "dt") c5wd c5crow
    0 31 [(2, 3)] [] (by decide)

theorem natDigits_ne_nil (n : Nat) : natDigits n ≠ [] := by
  show natDigitsFuel (n + 1) n ≠ []
  unfold natDigitsFuel
  split <;> simp

theorem pad2_ne_nil (n : Nat) : pad2 n ≠ [] := by
  unfold pad2
  split <;> simp [natDigits_ne_nil]

theorem extractTime_some_ne_nil {l t : List Char} (h : extractTime l = some t) :
    t ≠ [] := by
  unfold extractTime at h
  cases hs : searchTimeRange (z2hL l) with
  | none => rw [hs] at h; cases h
  | some g =>
    obtain ⟨h1, m1, h2, m2, k⟩ := g
    rw [hs] at h
    injection h with h
    subst h
    simp [pad2_ne_nil]

theorem bool_eq_false {b : Bool} (h : ¬ b = true) : b = false := by
  cases b with
  | false => rfl
  | true => exact absurd rfl h

theorem nonEvent_false_ne_nil {t : List Char} (h : isNonEvent t = false) :
    t ≠ [] := by
  intro he
  subst he
  exact absurd h (by decide)

set_option maxHeartbeats 1000000 in
theorem cellEvent_some_inv {y m : Nat} {src url dt : List Char}
    {wdCols : List (List Char × Nat × Nat)} {contentRow : Row}
    {p : Nat × Nat} {e : Event}
    (h : cellEvent y m src url dt wdCols contentRow p = some e) :
    eventInv y m src url dt e := by
  unfold cellEvent at h
  cases hblk : getWdBlock wdCols p.1 with
  | none => rw [hblk] at h; cases h
  | some blk =>
    rw [hblk] at h
    simp only at h
    split_ifs at h with h1 h2 h3 h4
    all_goals try cases h
    have hne : isNonEvent (cellTitle (getBlockContent contentRow blk.2.1 blk.2.2))
        = false := bool_eq_false h3
    refine ⟨⟨p.2, h4, rfl⟩, ?_, hne, rfl, rfl, ?_⟩
    · exact nonEvent_false_ne_nil hne
    · intro hdt
      cases hext : extractTime (getBlockContent contentRow blk.2.1 blk.2.2) with
      | none => simp [hext, hdt]
      | some t => simp [hext, extractTime_some_ne_nil hext]

theorem walkRows_mem_inv {y m : Nat} {src url dt : List Char}
    {wdCols : List (List Char × Nat × Nat)} :
    ∀ (n : Nat) (rows : List Row), rows.length ≤ n →
      ∀ e ∈ walkRows y m src url dt wdCols rows, eventInv y m src url dt e := by
  intro n
  induction n with
  | zero =>
    intro rows hlen e he
    cases rows with
    | nil => cases he
    | cons r t => simp at hlen
  | succ n ih =>
    intro rows hlen e he
    match rows with
    | [] => cases he
    | [row] =>
      unfold walkRows at he
      split_ifs at he with hcond
      · unfold rowEvents at he
        rcases List.mem_filterMap.mp he with ⟨p, _, hp⟩
        exact cellEvent_some_inv hp
      · cases he
    | row :: row2 :: rest =>
      unfold walkRows at he
      split_ifs at he with hcond
      · rcases List.mem_append.mp he with hmem | hmem
        · unfold rowEvents at hmem
          rcases List.mem_filterMap.mp hmem with ⟨p, _, hp⟩
          exact cellEvent_some_inv hp
        · exact ih rest (by simp only [List.length_cons] at hlen; omega) e hmem
      · exact ih (row2 :: rest)
          (by simp only [List.length_cons] at hlen ⊢; omega) e he

/-- C10: every event produced by `_parse_calendar_table` has a date that is a
valid day of the supplied year/month rendered in ISO form, a non-empty title
that fails the non-event test, the supplied source and url, and a non-empty
time whenever the default time is non-empty. -/
theorem c10_parse_calendar_invariants (table : List Row) (y m : Nat)
    (src url dt : List Char) (e : Event)
    (h : e ∈ parseCalendarTable table y m src url dt) :
    eventInv y m src url dt e := by
  unfold parseCalendarTable at h
  cases hf : findHeader table with
  | none => rw [hf] at h; cases h
  | some pr =>
    rw [hf] at h
    exact walkRows_mem_inv pr.2.length pr.2 (Nat.le_refl _) e h

/-- Witness for `c10_parse_calendar_invariants` on the concrete grid. -/
theorem c10_parse_calendar_invariants_witness :
    eventInv 2026 2 (strL "s") (strL "u") (strL "dt")
      (c5ev 2026 2 (strL "s") (strL "u")) :=
  c10_parse_calendar_invariants c5grid 2026 2 (strL "s") (strL "u") (strL "dt")
    (c5ev 2026 2 (strL "s") (strL "u")) (by decide)

/-- C2 counterexample: `normalize_time "10:30"` returns the bare `"10:30"`
(the final `return start` adds no range glyph), not the claimed `"10:30〜"`. -/
theorem c2_counterexample :
    normalizeTime (strL "10:30") = strL "10:30" ∧
    normalizeTime (strL "10:30") ≠ strL "10:30〜" := by
  refine ⟨by decide, by decide⟩

/-- C2 (amended): when `normalize_time` finds a start time but no end time it
returns the bare start `"HH:MM"` without the range glyph (so `"10:30"` maps
to `"10:30"`), and when no time pattern is recognized in the first split
piece it returns the empty string. -/
theorem c2_bare_start_and_empty (text : List Char) :
    ((normTimePieces text).2 = [] → normalizeTime text = (normTimePieces text).1) ∧
    ((normTimePieces text).1 = [] → normalizeTime text = []) := by
  constructor
  · intro h2
    unfold normalizeTime
    split_ifs with hc
    · exact absurd h2 hc.2
    · rfl
  · intro h1
    unfold normalizeTime
    split_ifs with hc
    · exact absurd h1 hc.1
    · exact h1

/-- Witness for `c2_bare_start_and_empty` at concrete inputs. -/
theorem c2_bare_start_and_empty_witness :
    normalizeTime (strL "10:30") = (normTimePieces (strL "10:30")).1 ∧
    normalizeTime (strL "event text") = [] :=
  ⟨(c2_bare_start_and_empty (strL "10:30")).1 (by decide),
   (c2_bare_start_and_empty (strL "event text")).2 (by decide)⟩

theorem pyDigit_not_ws {c : Char} (h : isPyDigit c = true) :
    isWsChar c = false := by
  simp only [isPyDigit, isAsciiDigit, isFwDigit, Bool.or_eq_true,
    Bool.and_eq_true, decide_eq_true_eq] at h
  simp only [isWsChar, Bool.or_eq_false_iff, Bool.and_eq_false_iff,
    decide_eq_false_iff_not]
  omega

theorem asciiDigit_isPyDigit {c : Char} (h : isAsciiDigit c = true) :
    isPyDigit c = true := by
  simp [isPyDigit, h]

theorem takeWhile_all_append {p : Char → Bool} :
    ∀ (xs : List Char) {y : Char} (ys : List Char),
      (∀ c ∈ xs, p c = true) → p y = false →
      (xs ++ y :: ys).takeWhile p = xs ∧ (xs ++ y :: ys).dropWhile p = y :: ys := by
  intro xs
  induction xs with
  | nil =>
    intro y ys _ hy
    constructor
    · simp [List.takeWhile_cons, hy]
    · simp [List.dropWhile_cons, hy]
  | cons a t ih =>
    intro y ys hall hy
    have ha : p a = true := hall a (by simp)
    have ht := ih ys (fun c hc => hall c (by simp [hc])) hy
    constructor
    · simp [List.takeWhile_cons, ha, ht.1]
    · simp [List.dropWhile_cons, ha, ht.2]

theorem skipWs_cons_not {c : Char} {rest : List Char} (h : isWsChar c = false) :
    skipWsL (c :: rest) = c :: rest := by
  unfold skipWsL
  rw [List.dropWhile_cons, if_neg (by simp [h])]

/-- A non-empty digit run directly followed by a non-digit literal: no
whitespace to skip, the run is the maximal `takeWhile`, and `dropWhile`
resumes at the literal. -/
theorem digits_then_lit {m X : List Char} {y : Char} (hm : m ≠ [])
    (hma : ∀ c ∈ m, isPyDigit c = true) (hlit : isPyDigit y = false) :
    skipWsL (m ++ y :: X) = m ++ y :: X ∧
    (m ++ y :: X).takeWhile isPyDigit = m ∧
    (m ++ y :: X).dropWhile isPyDigit = y :: X := by
  obtain ⟨c0, m', rfl⟩ := List.exists_cons_of_ne_nil hm
  refine ⟨?_, (takeWhile_all_append _ _ hma hlit).1,
    (takeWhile_all_append _ _ hma hlit).2⟩
  exact skipWs_cons_not (pyDigit_not_ws (hma c0 (by simp)))

theorem expectLit_pos (c : Char) (cs : List Char) :
    expectLit c (c :: cs) = some cs := by
  simp [expectLit]

theorem readDigits_canonical {n X : List Char} {y : Char} (hn : n ≠ [])
    (hna : ∀ c ∈ n, isPyDigit c = true) (hy : isPyDigit y = false) :
    readDigits (n ++ y :: X) = some (n, y :: X) := by
  unfold readDigits
  rw [(takeWhile_all_append _ _ hna hy).1, (takeWhile_all_append _ _ hna hy).2,
    if_neg hn]

theorem matchReiwaYMDAt_canonical {n m d : List Char} (tail : List Char)
    (hn : n ≠ []) (hna : ∀ c ∈ n, isPyDigit c = true)
    (hm0 : m ≠ []) (hm2 : m.length ≤ 2) (hma : ∀ c ∈ m, isPyDigit c = true)
    (hd0 : d ≠ []) (hd2 : d.length ≤ 2) (hda : ∀ c ∈ d, isPyDigit c = true) :
    matchReiwaYMDAt
        ('令' :: '和' :: (n ++ '年' :: (m ++ '月' :: (d ++ '日' :: tail))))
      = some (valD n, m, d) := by
  obtain ⟨h1s, -, -⟩ :=
    digits_then_lit (X := m ++ '月' :: (d ++ '日' :: tail)) (y := '年')
      hn hna (by decide)
  obtain ⟨h2s, -, -⟩ :=
    digits_then_lit (X := d ++ '日' :: tail) (y := '月') hm0 hma (by decide)
  obtain ⟨h3s, -, -⟩ :=
    digits_then_lit (X := tail) (y := '日') hd0 hda (by decide)
  simp only [matchReiwaYMDAt]
  rw [expectLit_pos]
  dsimp only
  rw [expectLit_pos]
  dsimp only
  rw [h1s, readDigits_canonical hn hna (by decide)]
  dsimp only
  rw [skipWs_cons_not (by decide), expectLit_pos]
  dsimp only
  rw [h2s, readDigits_canonical hm0 hma (by decide)]
  dsimp only
  rw [if_neg (by omega)]
  rw [skipWs_cons_not (by decide), expectLit_pos]
  dsimp only
  rw [h3s, readDigits_canonical hd0 hda (by decide)]
  dsimp only
  rw [if_neg (by omega)]
  rw [skipWs_cons_not (by decide), expectLit_pos]

theorem searchReiwaYMD_canonical {n m d : List Char} (tail : List Char)
    (hn : n ≠ []) (hna : ∀ c ∈ n, isPyDigit c = true)
    (hm0 : m ≠ []) (hm2 : m.length ≤ 2) (hma : ∀ c ∈ m, isPyDigit c = true)
    (hd0 : d ≠ []) (hd2 : d.length ≤ 2) (hda : ∀ c ∈ d, isPyDigit c = true) :
    searchReiwaYMD
        ('令' :: '和' :: (n ++ '年' :: (m ++ '月' :: (d ++ '日' :: tail))))
      = some (valD n, m, d) := by
  unfold searchReiwaYMD
  rw [matchReiwaYMDAt_canonical tail hn hna hm0 hm2 hma hd0 hd2 hda]

theorem matchReiwaYMAt_canonical {n m : List Char} (tail : List Char)
    (hn : n ≠ []) (hna : ∀ c ∈ n, isPyDigit c = true)
    (hm0 : m ≠ []) (hma : ∀ c ∈ m, isPyDigit c = true) :
    matchReiwaYMAt ('令' :: '和' :: (n ++ '年' :: (m ++ '月' :: tail)))
      = some (valD n, valD m) := by
  obtain ⟨h1s, -, -⟩ :=
    digits_then_lit (X := m ++ '月' :: tail) (y := '年') hn hna (by decide)
  obtain ⟨h2s, -, -⟩ :=
    digits_then_lit (X := tail) (y := '月') hm0 hma (by decide)
  simp only [matchReiwaYMAt]
  rw [expectLit_pos]
  dsimp only
  rw [expectLit_pos]
  dsimp only
  rw [h1s, readDigits_canonical hn hna (by decide)]
  dsimp only
  rw [skipWs_cons_not (by decide), expectLit_pos]
  dsimp only
  rw [h2s, readDigits_canonical hm0 hma (by decide)]
  dsimp only
  rw [skipWs_cons_not (by decide), expectLit_pos]

theorem searchReiwaYM_canonical {n m : List Char} (tail : List Char)
    (hn : n ≠ []) (hna : ∀ c ∈ n, isPyDigit c = true)
    (hm0 : m ≠ []) (hma : ∀ c ∈ m, isPyDigit c = true) :
    searchReiwaYM ('令' :: '和' :: (n ++ '年' :: (m ++ '月' :: tail)))
      = some (valD n, valD m) := by
  unfold searchReiwaYM
  rw [matchReiwaYMAt_canonical tail hn hna hm0 hma]

theorem z2hChar_fixed_of_ascii_digit {c : Char} (h : isAsciiDigit c = true) :
    z2hChar c = c := by
  simp only [isAsciiDigit, Bool.and_eq_true, decide_eq_true_eq] at h
  unfold z2hChar
  rw [if_neg (fun he => by subst he; exact absurd h (by decide)),
    if_neg (fun he => by subst he; exact absurd h (by decide)),
    if_neg (fun he => by subst he; exact absurd h (by decide)),
    if_neg (fun he => by subst he; exact absurd h (by decide)),
    if_neg (fun he => by subst he; exact absurd h (by decide)),
    if_neg (fun he => by subst he; exact absurd h (by decide)),
    if_neg (fun he => by subst he; exact absurd h (by decide)),
    if_neg (fun he => by subst he; exact absurd h (by decide)),
    if_neg (fun he => by subst he; exact absurd h (by decide)),
    if_neg (fun he => by subst he; exact absurd h (by decide)),
    if_neg (fun he => by subst he; exact absurd h (by decide))]

theorem stripL_canonical {l : List Char} (hh : headNotWs l = true)
    (hl : headNotWs l.reverse = true) : stripL l = l :=
  stripL_fixed hh hl

/-- C7: a canonical imperial-era date string `令和N年M月D日` normalizes to the
ISO date with Gregorian year `2018 + N`, month `M`, day `D` (month and day
zero-filled to two digits); and `_get_year_month_from_pdf_text` maps a
canonical `令和N年M月` to `(2018 + N, M)`. -/
theorem c7_reiwa_era_conversion (n m d : List Char)
    (nowY fy fm : Nat) (bY bM : Option Nat)
    (hn : n ≠ []) (hna : ∀ c ∈ n, isAsciiDigit c = true)
    (hm0 : m ≠ []) (hm2 : m.length ≤ 2) (hma : ∀ c ∈ m, isAsciiDigit c = true)
    (hd0 : d ≠ []) (hd2 : d.length ≤ 2) (hda : ∀ c ∈ d, isAsciiDigit c = true) :
    normalizeDate nowY
        ('令' :: '和' :: (n ++ '年' :: (m ++ '月' :: (d ++ ['日'])))) bY bM
      = natDigits (2018 + valD n) ++ '-' :: (zfill2 m ++ '-' :: zfill2 d) ∧
    getYearMonthFromPdfText ('令' :: '和' :: (n ++ '年' :: (m ++ ['月']))) fy fm
      = (valD n + 2018, valD m) := by
  have hna' : ∀ c ∈ n, isPyDigit c = true :=
    fun c hc => asciiDigit_isPyDigit (hna c hc)
  have hma' : ∀ c ∈ m, isPyDigit c = true :=
    fun c hc => asciiDigit_isPyDigit (hma c hc)
  have hda' : ∀ c ∈ d, isPyDigit c = true :=
    fun c hc => asciiDigit_isPyDigit (hda c hc)
  constructor
  · have htext : ('令' :: '和' :: (n ++ '年' :: (m ++ '月' :: (d ++ ['日']))))
        = ('令' :: '和' :: (n ++ '年' :: (m ++ '月' :: d))) ++ ['日'] := by
      simp
    have hstrip : stripL ('令' :: '和' :: (n ++ '年' :: (m ++ '月' :: (d ++ ['日']))))
        = '令' :: '和' :: (n ++ '年' :: (m ++ '月' :: (d ++ ['日']))) := by
      apply stripL_canonical
      · rfl
      · rw [htext, List.reverse_append]
        rfl
    unfold normalizeDate
    rw [if_neg (by simp)]
    rw [hstrip]
    dsimp only
    rw [searchReiwaYMD_canonical [] hn hna' hm0 hm2 hma' hd0 hd2 hda']
  · have hz : z2hL ('令' :: '和' :: (n ++ '年' :: (m ++ ['月'])))
        = '令' :: '和' :: (n ++ '年' :: (m ++ ['月'])) := by
      apply map_fixed_eq_self
      intro c hc
      simp only [List.mem_cons, List.mem_append, List.mem_singleton,
        List.not_mem_nil, or_false] at hc
      rcases hc with rfl | rfl | hc | rfl | hc | rfl
      · decide
      · decide
      · exact z2hChar_fixed_of_ascii_digit (hna c hc)
      · decide
      · exact z2hChar_fixed_of_ascii_digit (hma c hc)
      · decide
    unfold getYearMonthFromPdfText
    rw [hz]
    dsimp only
    rw [searchReiwaYM_canonical [] hn hna' hm0 hma']

/-- Witness for `c7_reiwa_era_conversion`: 令和6年4月1日 → 2024-04-01 and
令和6年4月 → (2024, 4). -/
theorem c7_reiwa_era_conversion_witness :
    normalizeDate 2026 (strL "令和6年4月1日") none none = strL "2024-04-01" ∧
    getYearMonthFromPdfText (strL "令和6年4月") 0 0 = (2024, 4) := by
  have h := c7_reiwa_era_conversion (strL "6") (strL "4") (strL "1") 2026 0 0
    none none (by decide) (by decide) (by decide) (by decide) (by decide)
    (by decide) (by decide) (by decide)
  exact ⟨h.1, h.2⟩

/-- C8: when the text resolver finds no year (`y = 0`), the text carries an
issue number `N月号` and the metadata a creation date `(CY, CM)`,
`_get_year_month_from_metadata` returns `(CY, N)` for `N ≥ CM` and
`(CY + 1, N)` for `N < CM`. -/
theorem c8_metadata_issue_month (creationDate text : List Char)
    (fy fm n cy cm : Nat)
    (htext : (getYearMonthFromPdfText text 0 0).1 = 0)
    (hg : searchGatsugo (z2hL text) = some n)
    (hc : searchCreation creationDate = some (cy, cm)) :
    getYearMonthFromMetadata creationDate text fy fm =
      if n ≥ cm then (cy, n) else (cy + 1, n) := by
  unfold getYearMonthFromMetadata
  dsimp only
  rw [if_neg (by simp [htext]), hg, hc]

/-- Witness for `c8_metadata_issue_month`: issue 3月号 with a February 2026
creation date resolves to March 2026. -/
theorem c8_metadata_issue_month_witness :
    getYearMonthFromMetadata (strL "D:20260217140119+0900") (strL "たより 3月号")
        2000 1 =
      if 3 ≥ 2 then ((2026 : Nat), (3 : Nat)) else (2027, 3) :=
  c8_metadata_issue_month (strL "D:20260217140119+0900") (strL "たより 3月号")
    2000 1 3 2026 2 (by decide) (by decide) (by decide)

/-- C9: every common record built by `make_event` or `_hall_event_to_common`
whose `needs_reservation` flag is true has a title starting with ★, and a
false flag leaves the title unchanged. -/
theorem c9_reservation_marker :
    (∀ (t dr di tr lo ai ca ta u so : List Char) (nr : Bool),
      ((make_event t dr di tr lo ai ca ta u so nr).needs_reservation = true →
        startsStar (make_event t dr di tr lo ai ca ta u so nr).title = true) ∧
      ((make_event t dr di tr lo ai ca ta u so nr).needs_reservation = false →
        (make_event t dr di tr lo ai ca ta u so nr).title = t)) ∧
    (∀ ev : Event,
      ((hallEventToCommon ev).needs_reservation = true →
        startsStar (hallEventToCommon ev).title = true) ∧
      ((hallEventToCommon ev).needs_reservation = false →
        (hallEventToCommon ev).title = ev.title)) := by
  constructor
  · intro t dr di tr lo ai ca ta u so nr
    cases nr with
    | false =>
      refine ⟨fun h => Bool.noConfusion h, fun _ => rfl⟩
    | true =>
      refine ⟨fun _ => rfl, fun h => Bool.noConfusion h⟩
  · intro ev
    constructor
    · intro h
      have h' : hallNeedsRes ev = true := h
      show startsStar (if startsStar ev.title then ev.title
        else if hallNeedsRes ev then '★' :: ev.title else ev.title) = true
      cases hs : startsStar ev.title with
      | true => simp [hs]
      | false => simp [hs, h', startsStar]
    · intro h
      have h' : hallNeedsRes ev = false := h
      have hs : startsStar ev.title = false := by
        unfold hallNeedsRes at h'
        rcases Bool.or_eq_false_iff.mp (Bool.or_eq_false_iff.mp h').1 with ⟨h1, _⟩
        exact h1
      show (if startsStar ev.title then ev.title
        else if hallNeedsRes ev then '★' :: ev.title else ev.title) = ev.title
      simp [hs, h']

/-- Witness for `c9_reservation_marker` at concrete records. -/
theorem c9_reservation_marker_witness :
    startsStar (make_event (strL "x") [] [] [] [] [] [] [] [] [] true).title
      = true ∧
    (hallEventToCommon (c5ev 2026 2 (strL "s") (strL "u"))).title
      = (c5ev 2026 2 (strL "s") (strL "u")).title :=
  ⟨(c9_reservation_marker.1 (strL "x") [] [] [] [] [] [] [] [] [] true).1 rfl,
   (c9_reservation_marker.2 (c5ev 2026 2 (strL "s") (strL "u"))).2 (by decide)⟩

theorem hallStep_mono {fetch pdfMap acc cfg} {e : Event} (h : e ∈ acc) :
    e ∈ hallStep fetch pdfMap acc cfg := by
  unfold hallStep
  cases getPdfBytes fetch pdfMap cfg with
  | none => exact h
  | some b =>
    dsimp only
    by_cases hb : b = []
    · simp [hb, h]
    · rw [if_neg hb]
      cases cfg.scraper b with
      | ok evs => exact List.mem_append.mpr (Or.inl h)
      | error z => exact h

theorem hallFold_mono {fetch pdfMap} {e : Event} :
    ∀ (l : List HallCfg) (acc : List Event), e ∈ acc →
      e ∈ l.foldl (hallStep fetch pdfMap) acc := by
  intro l
  induction l with
  | nil => intro acc h; exact h
  | cons c t ih => intro acc h; exact ih _ (hallStep_mono h)

/-- C6: the failure (or emptiness) of any one facility's scraper is confined
to that source: every event of every configured facility whose scraper
succeeds still appears in the aggregated list, whatever the other scrapers
do (including raising). -/
theorem c6_adapter_isolation (fetch : List Char → Option (List Char))
    (cfgs : List HallCfg) (pdfMap : List (List Char × List Char))
    (cfg : HallCfg) (b : List Char) (evs : List Event) (e : Event)
    (hmem : cfg ∈ cfgs) (hpdf : getPdfBytes fetch pdfMap cfg = some b)
    (hb : b ≠ []) (hok : cfg.scraper b = Except.ok evs) (he : e ∈ evs) :
    e ∈ scrapeAllHalls fetch cfgs pdfMap := by
  unfold scrapeAllHalls
  suffices hgen : ∀ (l : List HallCfg) (acc : List Event), cfg ∈ l →
      e ∈ l.foldl (hallStep fetch pdfMap) acc from hgen cfgs [] hmem
  intro l
  induction l with
  | nil => intro acc h; cases h
  | cons c t ih =>
    intro acc hin
    rcases List.mem_cons.mp hin with rfl | hin
    · have hstep : hallStep fetch pdfMap acc cfg = acc ++ evs := by
        unfold hallStep
        rw [hpdf]
        show (if b = [] then acc
          else match cfg.scraper b with
            | Except.ok evs => acc ++ evs
            | Except.error _ => acc) = acc ++ evs
        rw [if_neg hb, hok]
      rw [List.foldl_cons, hstep]
      exact hallFold_mono t _ (List.mem_append.mpr (Or.inr he))
    · exact ih _ hin

theorem c6_adapter_isolation_witness :
    c5ev 2026 2 (strL "B") (strL "u") ∈
      scrapeAllHalls (fun _ => none) [c6badCfg, c6okCfg]
        [(strL "A", strL "pdf"), (strL "B", strL "pdf")] :=
  c6_adapter_isolation (fun _ => none) [c6badCfg, c6okCfg]
    [(strL "A", strL "pdf"), (strL "B", strL "pdf")]
    c6okCfg (strL "pdf") [c5ev 2026 2 (strL "B") (strL "u")]
    (c5ev 2026 2 (strL "B") (strL "u"))
    (by simp) rfl (by decide) rfl (by simp)

/-- C1 counterexample: two adapters emitting the identical record (same
source, date and title) leave TWO copies in the aggregate, not one. -/
theorem c1_counterexample :
    (scrapeAgg (Except.ok [c1ev]) (Except.ok [c1ev]) (Except.ok [])
        (Except.ok [])).count c1ev = 2 := by
  unfold scrapeAgg
  rw [(List.mergeSort_perm _ _).count_eq]
  decide

/-- C1 (amended): `scrape` performs no deduplication at all: the aggregate is
a date-sorted permutation of the concatenation of the four sources'
contributions, so every record keeps its multiplicity — identical
(source, date, title) records from two adapters appear twice. -/
theorem c1_no_dedup_multiplicity (ra rb rc rd : Except Unit (List CommonEvent))
    (ev : CommonEvent) :
    (scrapeAgg ra rb rc rd).count ev =
      (okList ra).count ev + (okList rb).count ev + (okList rc).count ev +
        (okList rd).count ev := by
  unfold scrapeAgg
  rw [(List.mergeSort_perm _ _).count_eq]
  simp only [List.count_append]
